import Mathlib

/-!
# Verification of the CertifyFast batch issuance pipeline (`app.py`)

Shallow embedding of the core logic of `app.py`:

* Python strings are modelled as `List Char` (`PyStr`), with `pyStrip`,
  `pyLower`, `pyIsAlnum` mirroring `str.strip()`, `str.lower()` and
  `str.isalnum()` on the ASCII fragment exercised by the program.
* Python dicts (`cert_data`, the column map, the job registry) are modelled as
  association lists with in-place overwrite (`dictSet`) or as functions
  `String → Option Job`.
* External collaborators (the rendering engine, storage, the filesystem) are
  abstracted as explicit parameters: a per-row fault oracle for the try-block
  of row processing, an `Except` value for template/dataset loading, an
  `Except` value for reading the finished archive.
-/

abbrev PyStr := List Char

/-- Convert a Lean string literal to the `List Char` model of Python strings. -/
def ofStr (s : String) : PyStr := s.toList

/-- Whitespace stripped by Python `str.strip()` (ASCII fragment). -/
def pyIsSpace (c : Char) : Bool := c ∈ [' ', '\t', '\n', '\r', '\x0b', '\x0c']

/-- Model of Python `str.strip()`: drop leading and trailing whitespace. -/
def pyStrip (l : PyStr) : PyStr :=
  ((l.dropWhile pyIsSpace).reverse.dropWhile pyIsSpace).reverse

/-- Model of Python `str.lower()` (ASCII fragment). -/
def pyLower (l : PyStr) : PyStr := l.map Char.toLower

/-- Model of Python `str.isalnum()` on one character (ASCII fragment). -/
def pyIsAlnum (c : Char) : Bool := c.isAlpha || c.isDigit

/-- `app.py` line 176: a character is kept iff `c.isalnum() or c in " _-"`. -/
def allowedChar (c : Char) : Bool := pyIsAlnum c || c ∈ [' ', '_', '-']

/-- `app.py` line 176: `"".join(c if c.isalnum() or c in " _-" else "_" for c in v)`. -/
def sanitizeName (l : PyStr) : PyStr := l.map (fun c => if allowedChar c then c else '_')

/-- Decimal digit character for `d < 10`. -/
def digChar (d : Nat) : Char := Char.ofNat (48 + d)

/-- Fuel-driven decimal printer (model of Python `str(n)` for naturals). -/
def natToCharsAux : Nat → Nat → List Char
  | 0, _ => []
  | fuel + 1, n =>
    if n < 10 then [digChar n]
    else natToCharsAux fuel (n / 10) ++ [digChar (n % 10)]

/-- Model of Python `str(n)` for a natural number `n` (decimal digits). -/
def natToChars (n : Nat) : PyStr := natToCharsAux (n + 1) n

/-- `app.py` lines 175/176: the fallback display name `f"certificate_{idx+1}"`. -/
def fallbackName (idx : Nat) : PyStr := ofStr "certificate_" ++ natToChars (idx + 1)

/-- `app.py` lines 172–176: derivation of the sanitized display name for one row.
`v` is the raw first-column value, `idx` the 0-based row index. -/
def safeFileName (v : PyStr) (idx : Nat) : PyStr :=
  let fnameVal := pyStrip v
  let fnameVal := if fnameVal = [] ∨ pyLower fnameVal = ofStr "nan" then fallbackName idx else fnameVal
  let safeName := pyStrip (sanitizeName fnameVal)
  if safeName = [] then fallbackName idx else safeName

-- ## Helper lemmas about the string model

theorem isDigit_digChar {d : Nat} (h : d < 10) : (digChar d).isDigit = true := by
  interval_cases d <;> decide

theorem mem_natToCharsAux_isDigit :
    ∀ fuel n c, c ∈ natToCharsAux fuel n → c.isDigit = true := by
  intro fuel
  induction fuel with
  | zero => intro n c h; simp [natToCharsAux] at h
  | succ fuel ih =>
    intro n c h
    by_cases hn : n < 10
    · simp [natToCharsAux, hn] at h
      subst h; exact isDigit_digChar hn
    · simp [natToCharsAux, hn] at h
      rcases h with h | h
      · exact ih _ _ h
      · subst h; exact isDigit_digChar (Nat.mod_lt _ (by omega))

theorem mem_natToChars_isDigit {n : Nat} {c : Char} (h : c ∈ natToChars n) :
    c.isDigit = true :=
  mem_natToCharsAux_isDigit _ _ _ h

theorem digit_allowed {c : Char} (h : c.isDigit = true) : allowedChar c = true := by
  simp [allowedChar, pyIsAlnum, h]

theorem digit_not_space {c : Char} (h : c.isDigit = true) : pyIsSpace c = false := by
  simp only [Char.isDigit, Bool.and_eq_true, decide_eq_true_eq] at h
  simp only [pyIsSpace, List.mem_cons, List.not_mem_nil, or_false,
    decide_eq_false_iff_not]
  intro hc
  rcases hc with h' | h' | h' | h' | h' | h' <;> subst h' <;> exact absurd h.1 (by decide)

/-- Every character of the fallback name is an allowed, non-space character. -/
theorem fallbackName_chars {i : Nat} {c : Char} (h : c ∈ fallbackName i) :
    allowedChar c = true ∧ pyIsSpace c = false := by
  simp only [fallbackName, List.mem_append] at h
  rcases h with h | h
  · revert h
    have : ∀ c, c ∈ ofStr "certificate_" → allowedChar c = true ∧ pyIsSpace c = false := by
      decide
    exact this c
  · have hd := mem_natToChars_isDigit h
    exact ⟨digit_allowed hd, digit_not_space hd⟩

theorem dropWhile_eq_self_of_head {p : Char → Bool} :
    ∀ l : PyStr, (∀ c ∈ l, p c = false) → l.dropWhile p = l := by
  intro l h
  cases l with
  | nil => rfl
  | cons c t => simp [List.dropWhile, h c (List.mem_cons_self _ _)]

theorem pyStrip_eq_self {l : PyStr} (h : ∀ c ∈ l, pyIsSpace c = false) :
    pyStrip l = l := by
  unfold pyStrip
  rw [dropWhile_eq_self_of_head l h,
      dropWhile_eq_self_of_head l.reverse (fun c hc => h c (List.mem_reverse.mp hc)),
      List.reverse_reverse]

theorem mem_of_mem_pyStrip {l : PyStr} {c : Char} (h : c ∈ pyStrip l) : c ∈ l := by
  unfold pyStrip at h
  rw [List.mem_reverse] at h
  have h1 := (List.dropWhile_sublist (l := (l.dropWhile pyIsSpace).reverse) pyIsSpace).mem h
  rw [List.mem_reverse] at h1
  exact (List.dropWhile_sublist pyIsSpace).mem h1

theorem sanitizeName_fixed {l : PyStr} (h : ∀ c ∈ l, allowedChar c = true) :
    sanitizeName l = l := by
  unfold sanitizeName
  rw [List.map_congr_left (g := id) (fun c hc => by simp [h c hc]), List.map_id]

/-- The fallback name survives sanitization and stripping unchanged. -/
theorem safeFileName_of_fallback {i : Nat} :
    pyStrip (sanitizeName (fallbackName i)) = fallbackName i := by
  rw [sanitizeName_fixed (fun c hc => (fallbackName_chars hc).1),
      pyStrip_eq_self (fun c hc => (fallbackName_chars hc).2)]

theorem fallbackName_ne_nil {i : Nat} : fallbackName i ≠ [] := by
  unfold fallbackName
  intro h
  rw [List.append_eq_nil] at h
  exact absurd h.1 (by decide)

theorem mem_sanitizeName_allowed {l : PyStr} {c : Char} (h : c ∈ sanitizeName l) :
    allowedChar c = true := by
  simp only [sanitizeName, List.mem_map] at h
  obtain ⟨a, -, rfl⟩ := h
  by_cases ha : allowedChar a = true
  · simp [ha]
  · simp only [Bool.not_eq_true] at ha
    rw [ha, if_neg (by decide : ¬(false = true))]
    decide

theorem safeFileName_fallback_of_cond {v : PyStr} {i : Nat}
    (h : pyStrip v = [] ∨ pyLower (pyStrip v) = ofStr "nan") :
    safeFileName v i = fallbackName i := by
  unfold safeFileName
  simp only [if_pos h, safeFileName_of_fallback, if_neg fallbackName_ne_nil]

/-- **C9.** The sanitized display name satisfies the spec's stated properties:
`safeFileName("John/Doe", 0) = "John_Doe"`; `safeFileName("", 3) = "certificate_4"`;
an empty first-column value (after stripping) and the literal missing marker
`"nan"` both fall back to `certificate_<rowIndex+1>`; and every character of the
result is alphanumeric, a space, a hyphen, or an underscore (everything else
having been replaced with an underscore). -/
theorem C9_safe_filename :
    safeFileName (ofStr "John/Doe") 0 = ofStr "John_Doe" ∧
    safeFileName (ofStr "") 3 = ofStr "certificate_4" ∧
    (∀ v i, pyStrip v = [] → safeFileName v i = fallbackName i) ∧
    (∀ v i, pyLower (pyStrip v) = ofStr "nan" → safeFileName v i = fallbackName i) ∧
    (∀ v i c, c ∈ safeFileName v i → allowedChar c = true) := by
  refine ⟨by decide, by decide, ?_, ?_, ?_⟩
  · intro v i h; exact safeFileName_fallback_of_cond (Or.inl h)
  · intro v i h; exact safeFileName_fallback_of_cond (Or.inr h)
  · intro v i c hc
    unfold safeFileName at hc
    set f := if pyStrip v = [] ∨ pyLower (pyStrip v) = ofStr "nan"
      then fallbackName i else pyStrip v with hf
    by_cases hnil : pyStrip (sanitizeName f) = []
    · rw [if_pos hnil] at hc
      exact (fallbackName_chars hc).1
    · rw [if_neg hnil] at hc
      exact mem_sanitizeName_allowed (mem_of_mem_pyStrip hc)

/-- Witness for C9 at concrete inputs: the empty-after-strip fallback at
`v = "  "`, `i = 0`, and the allowed-character property at `'J' ∈ safeFileName "John" 0`. -/
theorem C9_safe_filename_witness :
    safeFileName (ofStr "  ") 0 = fallbackName 0 ∧ allowedChar 'J' = true :=
  ⟨C9_safe_filename.2.2.1 (ofStr "  ") 0 (by decide),
   C9_safe_filename.2.2.2.2 (ofStr "John") 0 'J' (by decide)⟩

-- ## Python dicts as association lists with in-place overwrite

abbrev Dict := List (PyStr × PyStr)

/-- Lookup in the dict model (`d[k]` / `k in d`). -/
def dictGet : Dict → PyStr → Option PyStr
  | [], _ => none
  | (k', v) :: t, k => if k' = k then some v else dictGet t k

/-- Assignment in the dict model (`d[k] = v`): overwrite in place or append. -/
def dictSet : Dict → PyStr → PyStr → Dict
  | [], k, v => [(k, v)]
  | (k', v') :: t, k, v => if k' = k then (k, v) :: t else (k', v') :: dictSet t k v

/-- Membership test in the dict model (`k in d`). -/
def dictHasKey (d : Dict) (k : PyStr) : Bool := (dictGet d k).isSome

/-- The keys of a dict, in insertion order. -/
def dictKeys (d : Dict) : List PyStr := d.map Prod.fst

theorem dictGet_dictSet_self {d : Dict} {k v : PyStr} :
    dictGet (dictSet d k v) k = some v := by
  induction d with
  | nil => simp [dictSet, dictGet]
  | cons p t ih =>
    by_cases h : p.1 = k
    · simp [dictSet, h, dictGet]
    · simp [dictSet, h, dictGet, ih]

theorem dictGet_dictSet_ne {d : Dict} {k k' v : PyStr} (h : k' ≠ k) :
    dictGet (dictSet d k v) k' = dictGet d k' := by
  have h' : ¬ k = k' := fun he => h he.symm
  induction d with
  | nil => simp [dictSet, dictGet, h']
  | cons p t ih =>
    by_cases hp : p.1 = k
    · subst hp
      simp [dictSet, dictGet, h']
    · simp [dictSet, hp, dictGet, ih]

theorem dictKeys_dictSet (d : Dict) (k v : PyStr) :
    dictKeys (dictSet d k v) =
      if k ∈ dictKeys d then dictKeys d else dictKeys d ++ [k] := by
  induction d with
  | nil => simp [dictSet, dictKeys]
  | cons p t ih =>
    by_cases h : p.1 = k
    · subst h
      simp [dictSet, dictKeys]
    · have hne : ¬ k = p.1 := fun he => h he.symm
      rw [show dictSet (p :: t) k v = p :: dictSet t k v from by simp [dictSet, h]]
      simp only [dictKeys, List.map_cons] at ih ⊢
      rw [ih]
      by_cases hk : k ∈ List.map Prod.fst t
      · simp [hk, hne]
      · simp [hk, hne]

theorem mem_dictKeys_dictSet {d : Dict} {k k' v : PyStr} (h : k' ∈ dictKeys d) :
    k' ∈ dictKeys (dictSet d k v) := by
  rw [dictKeys_dictSet]
  split <;> simp [h]

theorem self_mem_dictKeys_dictSet {d : Dict} {k v : PyStr} :
    k ∈ dictKeys (dictSet d k v) := by
  rw [dictKeys_dictSet]
  split <;> simp_all

theorem nodup_dictKeys_dictSet {d : Dict} {k v : PyStr}
    (h : (dictKeys d).Nodup) : (dictKeys (dictSet d k v)).Nodup := by
  rw [dictKeys_dictSet]
  split
  · exact h
  · next hk =>
    rw [List.nodup_append]
    refine ⟨h, List.nodup_singleton _, ?_⟩
    intro a ha hb
    simp only [List.mem_singleton] at hb
    subst hb
    exact hk ha

theorem subset_dictKeys_dictSet {d : Dict} {k v : PyStr} {K : List PyStr}
    (hd : dictKeys d ⊆ K) (hk : k ∈ K) : dictKeys (dictSet d k v) ⊆ K := by
  rw [dictKeys_dictSet]
  split
  · exact hd
  · intro x hx
    rcases List.mem_append.mp hx with hx | hx
    · exact hd hx
    · simp only [List.mem_singleton] at hx; subst hx; exact hk

theorem dictGet_isSome_iff_mem_dictKeys {d : Dict} {k : PyStr} :
    (dictGet d k).isSome = true ↔ k ∈ dictKeys d := by
  induction d with
  | nil => simp [dictGet, dictKeys]
  | cons p t ih =>
    by_cases h : p.1 = k
    · simp [dictGet, h, dictKeys]
    · have : ¬ k = p.1 := fun he => h he.symm
      simp [dictGet, h, dictKeys, ih, this]

-- ## A generic fold of dict assignments, and its lookup characterization

/-- Fold a list through a conditional dict assignment: for each element `x`,
if `f x = some (k, v)` perform `d[k] = v`, otherwise leave `d` unchanged. -/
def updFold {α : Type} (f : α → Option (PyStr × PyStr)) (l : List α) (d : Dict) : Dict :=
  l.foldl (fun d x =>
    match f x with
    | some (k, v) => dictSet d k v
    | none => d) d

/-- The value that element `x` writes at key `k`, if any. -/
def targetVal {α : Type} (f : α → Option (PyStr × PyStr)) (x : α) (k : PyStr) : Option PyStr :=
  match f x with
  | some (k', v) => if k' = k then some v else none
  | none => none

theorem dictGet_updStep {α : Type} (f : α → Option (PyStr × PyStr)) (x : α)
    (d : Dict) (k : PyStr) :
    dictGet (match f x with
             | some (k', v) => dictSet d k' v
             | none => d) k = (targetVal f x k).or (dictGet d k) := by
  unfold targetVal
  rcases hfx : f x with - | ⟨k', v⟩
  · simp
  · by_cases h : k' = k
    · subst h
      simp [dictGet_dictSet_self]
    · simp [h, dictGet_dictSet_ne (fun he => h he.symm)]

theorem dictGet_updFold {α : Type} (f : α → Option (PyStr × PyStr)) (k : PyStr) :
    ∀ (l : List α) (d : Dict),
      dictGet (updFold f l d) k =
        (l.reverse.findSome? (fun x => targetVal f x k)).or (dictGet d k) := by
  intro l
  induction l with
  | nil => intro d; simp [updFold]
  | cons x t ih =>
    intro d
    have hstep : updFold f (x :: t) d =
        updFold f t (match f x with
                     | some (k', v) => dictSet d k' v
                     | none => d) := by
      simp [updFold, List.foldl_cons]
    rw [hstep, ih, dictGet_updStep]
    have hsing : List.findSome? (fun x => targetVal f x k) [x] = targetVal f x k := by
      cases htv : targetVal f x k <;> simp [List.findSome?, htv]
    rw [List.reverse_cons, List.findSome?_append, hsing, Option.or_assoc]

-- ## Canonical certificate fields (`_run_generation`, app.py lines 179–194)

def certIdKey : PyStr := ofStr "cert_id"
def nameKey : PyStr := ofStr "name"
def courseKey : PyStr := ofStr "course"
def dateKey : PyStr := ofStr "date"

/-- app.py line 183: the name-like column synonyms. -/
def nameSyns : List PyStr := [ofStr "name", ofStr "student", ofStr "recipient", ofStr "full_name"]

/-- app.py line 185: the course-like column synonyms. -/
def courseSyns : List PyStr := [ofStr "course", ofStr "subject", ofStr "program", ofStr "course_name"]

/-- app.py line 187: the date-like column synonyms. -/
def dateSyns : List PyStr := [ofStr "date", ofStr "issue_date", ofStr "completion_date", ofStr "cert_date"]

/-- app.py line 182: `cl = col.lower().strip()`. -/
def normColGen (c : PyStr) : PyStr := pyStrip (pyLower c)

/-- The body of the loop at app.py lines 181–188: which canonical key (if any)
a column `(name, value)` assigns, and the assigned value `safe_str(row[col])`. -/
def certUpdate (p : PyStr × PyStr) : Option (PyStr × PyStr) :=
  let cl := normColGen p.1
  if cl ∈ nameSyns then some (nameKey, pyStrip p.2)
  else if cl ∈ courseSyns then some (courseKey, pyStrip p.2)
  else if cl ∈ dateSyns then some (dateKey, pyStrip p.2)
  else none

/-- app.py lines 190–194: positional fallback `safe_str(row[df.columns[i]])`
when the dataset has more than `i` columns, otherwise the given default. -/
def posFallback (cols : List (PyStr × PyStr)) (i : Nat) (dflt : PyStr) : PyStr :=
  match cols.get? i with
  | some p => pyStrip p.2
  | none => dflt

/-- app.py lines 180–188: `cert_data = {'cert_id': cert_id}` followed by the
synonym-matching loop over the row's columns. -/
def certD1 (certId : PyStr) (cols : List (PyStr × PyStr)) : Dict :=
  updFold certUpdate cols [(certIdKey, certId)]

/-- app.py line 190: `if 'name' not in cert_data: cert_data['name'] = ...`. -/
def certD2 (certId : PyStr) (cols : List (PyStr × PyStr)) : Dict :=
  if dictHasKey (certD1 certId cols) nameKey then certD1 certId cols
  else dictSet (certD1 certId cols) nameKey (posFallback cols 0 (ofStr "Unknown"))

/-- app.py line 191: `if 'course' not in cert_data: cert_data['course'] = ...`. -/
def certD3 (certId : PyStr) (cols : List (PyStr × PyStr)) : Dict :=
  if dictHasKey (certD2 certId cols) courseKey then certD2 certId cols
  else dictSet (certD2 certId cols) courseKey (posFallback cols 1 (ofStr "Unknown"))

/-- app.py lines 179–194: construction of `cert_data` for one row.  `cols` is
the row as ordered (column name, value) pairs; `today` models
`datetime.now().strftime('%Y-%m-%d')` (lines 192–194). -/
def buildCertData (certId : PyStr) (cols : List (PyStr × PyStr)) (today : PyStr) : Dict :=
  if dictHasKey (certD3 certId cols) dateKey then certD3 certId cols
  else dictSet (certD3 certId cols) dateKey (posFallback cols 2 today)

/-- The value of the LAST column whose normalized name lies in `syns`
(the loop at lines 181–188 overwrites on every match, so the last one wins). -/
def lastSynValue (syns : List PyStr) (cols : List (PyStr × PyStr)) : Option PyStr :=
  cols.reverse.findSome? (fun p => if normColGen p.1 ∈ syns then some (pyStrip p.2) else none)

/-- Modelled from the spec (claim C1): the value of the FIRST column whose
normalized name lies in `syns` — the behavior the claim asserts. -/
def specFirstSynValue (syns : List PyStr) (cols : List (PyStr × PyStr)) : Option PyStr :=
  cols.findSome? (fun p => if normColGen p.1 ∈ syns then some (pyStrip p.2) else none)

theorem targetVal_certUpdate_name (p : PyStr × PyStr) :
    targetVal certUpdate p nameKey =
      if normColGen p.1 ∈ nameSyns then some (pyStrip p.2) else none := by
  unfold targetVal certUpdate
  by_cases h1 : normColGen p.1 ∈ nameSyns
  · simp [h1]
  · by_cases h2 : normColGen p.1 ∈ courseSyns
    · simp [h1, h2, show ¬(courseKey = nameKey) from by decide]
    · by_cases h3 : normColGen p.1 ∈ dateSyns
      · simp [h1, h2, h3, show ¬(dateKey = nameKey) from by decide]
      · simp [h1, h2, h3]

theorem targetVal_certUpdate_course (p : PyStr × PyStr) :
    targetVal certUpdate p courseKey =
      if normColGen p.1 ∉ nameSyns ∧ normColGen p.1 ∈ courseSyns
      then some (pyStrip p.2) else none := by
  unfold targetVal certUpdate
  by_cases h1 : normColGen p.1 ∈ nameSyns
  · simp [h1, show ¬(nameKey = courseKey) from by decide]
  · by_cases h2 : normColGen p.1 ∈ courseSyns
    · simp [h1, h2]
    · by_cases h3 : normColGen p.1 ∈ dateSyns
      · simp [h1, h2, h3, show ¬(dateKey = courseKey) from by decide]
      · simp [h1, h2, h3]

theorem targetVal_certUpdate_date (p : PyStr × PyStr) :
    targetVal certUpdate p dateKey =
      if normColGen p.1 ∉ nameSyns ∧ normColGen p.1 ∉ courseSyns ∧ normColGen p.1 ∈ dateSyns
      then some (pyStrip p.2) else none := by
  unfold targetVal certUpdate
  by_cases h1 : normColGen p.1 ∈ nameSyns
  · simp [h1, show ¬(nameKey = dateKey) from by decide]
  · by_cases h2 : normColGen p.1 ∈ courseSyns
    · simp [h1, h2, show ¬(courseKey = dateKey) from by decide]
    · by_cases h3 : normColGen p.1 ∈ dateSyns
      · simp [h1, h2, h3]
      · simp [h1, h2, h3]

theorem targetVal_certUpdate_certId (p : PyStr × PyStr) :
    targetVal certUpdate p certIdKey = none := by
  unfold targetVal certUpdate
  by_cases h1 : normColGen p.1 ∈ nameSyns
  · simp [h1, show ¬(nameKey = certIdKey) from by decide]
  · by_cases h2 : normColGen p.1 ∈ courseSyns
    · simp [h1, h2, show ¬(courseKey = certIdKey) from by decide]
    · by_cases h3 : normColGen p.1 ∈ dateSyns
      · simp [h1, h2, h3, show ¬(dateKey = certIdKey) from by decide]
      · simp [h1, h2, h3]

theorem findSome?_none {α : Type} (l : List α) : l.findSome? (fun _ => (none : Option PyStr)) = none := by
  induction l with
  | nil => rfl
  | cons x t ih => simp [List.findSome?, ih]

theorem targetVal_certUpdate_course_simple (p : PyStr × PyStr) :
    targetVal certUpdate p courseKey =
      if normColGen p.1 ∈ courseSyns then some (pyStrip p.2) else none := by
  rw [targetVal_certUpdate_course]
  by_cases h2 : normColGen p.1 ∈ courseSyns
  · have h1 : normColGen p.1 ∉ nameSyns := by
      intro h1
      have : ∀ s ∈ courseSyns, s ∉ nameSyns := by decide
      exact this _ h2 h1
    simp [h1, h2]
  · simp [h2]

theorem targetVal_certUpdate_date_simple (p : PyStr × PyStr) :
    targetVal certUpdate p dateKey =
      if normColGen p.1 ∈ dateSyns then some (pyStrip p.2) else none := by
  rw [targetVal_certUpdate_date]
  by_cases h3 : normColGen p.1 ∈ dateSyns
  · have h1 : normColGen p.1 ∉ nameSyns := by
      intro h1
      have : ∀ s ∈ dateSyns, s ∉ nameSyns := by decide
      exact this _ h3 h1
    have h2 : normColGen p.1 ∉ courseSyns := by
      intro h2
      have : ∀ s ∈ dateSyns, s ∉ courseSyns := by decide
      exact this _ h3 h2
    simp [h1, h2, h3]
  · simp [h3]

theorem dictGet_certD1_certId (cid : PyStr) (cols : List (PyStr × PyStr)) :
    dictGet (certD1 cid cols) certIdKey = some cid := by
  unfold certD1
  rw [dictGet_updFold]
  simp only [targetVal_certUpdate_certId, findSome?_none, Option.none_or]
  simp [dictGet]

theorem dictGet_certD1_name (cid : PyStr) (cols : List (PyStr × PyStr)) :
    dictGet (certD1 cid cols) nameKey = lastSynValue nameSyns cols := by
  unfold certD1
  rw [dictGet_updFold]
  simp only [targetVal_certUpdate_name]
  rw [show dictGet [(certIdKey, cid)] nameKey = none from by simp [dictGet]; decide,
      Option.or_none]
  rfl

theorem dictGet_certD1_course (cid : PyStr) (cols : List (PyStr × PyStr)) :
    dictGet (certD1 cid cols) courseKey = lastSynValue courseSyns cols := by
  unfold certD1
  rw [dictGet_updFold]
  simp only [targetVal_certUpdate_course_simple]
  rw [show dictGet [(certIdKey, cid)] courseKey = none from by simp [dictGet]; decide,
      Option.or_none]
  rfl

theorem dictGet_certD1_date (cid : PyStr) (cols : List (PyStr × PyStr)) :
    dictGet (certD1 cid cols) dateKey = lastSynValue dateSyns cols := by
  unfold certD1
  rw [dictGet_updFold]
  simp only [targetVal_certUpdate_date_simple]
  rw [show dictGet [(certIdKey, cid)] dateKey = none from by simp [dictGet]; decide,
      Option.or_none]
  rfl

theorem dictGet_condSet_ne {d : Dict} {k k' v : PyStr} (c : Prop) [Decidable c]
    (h : k' ≠ k) :
    dictGet (if c then d else dictSet d k v) k' = dictGet d k' := by
  split
  · rfl
  · exact dictGet_dictSet_ne h

/-- Lookup-after-conditional-fallback: if the key was present its value is kept,
otherwise the fallback value is written. -/
theorem dictGet_condSet_self {d : Dict} {k v : PyStr} :
    dictGet (if dictHasKey d k then d else dictSet d k v) k =
      some ((dictGet d k).getD v) := by
  by_cases h : dictHasKey d k
  · rw [if_pos h]
    unfold dictHasKey at h
    rcases Option.isSome_iff_exists.mp h with ⟨w, hw⟩
    simp [hw]
  · rw [if_neg h]
    unfold dictHasKey at h
    have : dictGet d k = none := by
      cases hg : dictGet d k
      · rfl
      · exact absurd (by simp [hg]) h
    simp [this, dictGet_dictSet_self]

def canonicalKeys : List PyStr := [certIdKey, nameKey, courseKey, dateKey]

theorem certUpdate_key_mem {p q} (h : certUpdate p = some q) : q.1 ∈ canonicalKeys := by
  unfold certUpdate at h
  by_cases h1 : normColGen p.1 ∈ nameSyns
  · simp [h1] at h
    rw [← h]
    exact (by decide : nameKey ∈ canonicalKeys)
  · by_cases h2 : normColGen p.1 ∈ courseSyns
    · simp [h1, h2] at h
      rw [← h]
      exact (by decide : courseKey ∈ canonicalKeys)
    · by_cases h3 : normColGen p.1 ∈ dateSyns
      · simp [h1, h2, h3] at h
        rw [← h]
        exact (by decide : dateKey ∈ canonicalKeys)
      · simp [h1, h2, h3] at h

theorem updFold_keys_invariant {α : Type} {f : α → Option (PyStr × PyStr)} {K : List PyStr}
    (hf : ∀ x q, f x = some q → q.1 ∈ K) :
    ∀ (l : List α) (d : Dict), (dictKeys d).Nodup → dictKeys d ⊆ K →
      (dictKeys (updFold f l d)).Nodup ∧ dictKeys (updFold f l d) ⊆ K := by
  intro l
  induction l with
  | nil => exact fun d h1 h2 => ⟨h1, h2⟩
  | cons x t ih =>
    intro d h1 h2
    have hstep : updFold f (x :: t) d =
        updFold f t (match f x with
                     | some (k, v) => dictSet d k v
                     | none => d) := by
      simp [updFold, List.foldl_cons]
    rw [hstep]
    rcases hfx : f x with - | ⟨k, v⟩
    · exact ih d h1 h2
    · exact ih _ (nodup_dictKeys_dictSet h1)
        (subset_dictKeys_dictSet h2 (hf x (k, v) hfx))

theorem mem_dictKeys_updFold {α : Type} {f : α → Option (PyStr × PyStr)} {k : PyStr} :
    ∀ (l : List α) (d : Dict), k ∈ dictKeys d → k ∈ dictKeys (updFold f l d) := by
  intro l
  induction l with
  | nil => exact fun d h => h
  | cons x t ih =>
    intro d h
    have hstep : updFold f (x :: t) d =
        updFold f t (match f x with
                     | some (k', v) => dictSet d k' v
                     | none => d) := by
      simp [updFold, List.foldl_cons]
    rw [hstep]
    rcases hfx : f x with - | ⟨k', v⟩
    · exact ih d h
    · exact ih _ (mem_dictKeys_dictSet h)

theorem mem_dictKeys_condSet {d : Dict} {k k2 v : PyStr} (c : Prop) [Decidable c]
    (h : k ∈ dictKeys d) : k ∈ dictKeys (if c then d else dictSet d k2 v) := by
  split
  · exact h
  · exact mem_dictKeys_dictSet h

theorem nodup_subset_condSet {d : Dict} {k2 v : PyStr} {K : List PyStr}
    (c : Prop) [Decidable c] (h1 : (dictKeys d).Nodup) (h2 : dictKeys d ⊆ K)
    (hk : k2 ∈ K) :
    (dictKeys (if c then d else dictSet d k2 v)).Nodup ∧
      dictKeys (if c then d else dictSet d k2 v) ⊆ K := by
  split
  · exact ⟨h1, h2⟩
  · exact ⟨nodup_dictKeys_dictSet h1, subset_dictKeys_dictSet h2 hk⟩

theorem self_mem_dictKeys_condSet {d : Dict} {k v : PyStr} :
    k ∈ dictKeys (if dictHasKey d k then d else dictSet d k v) := by
  by_cases h : dictHasKey d k
  · rw [if_pos h]
    exact dictGet_isSome_iff_mem_dictKeys.mp h
  · rw [if_neg h]
    exact self_mem_dictKeys_dictSet

theorem dictGet_buildCertData_certId (cid cols today) :
    dictGet (buildCertData cid cols today) certIdKey = some cid := by
  unfold buildCertData certD3 certD2
  rw [dictGet_condSet_ne _ (by decide : certIdKey ≠ dateKey),
      dictGet_condSet_ne _ (by decide : certIdKey ≠ courseKey),
      dictGet_condSet_ne _ (by decide : certIdKey ≠ nameKey),
      dictGet_certD1_certId]

theorem dictGet_buildCertData_name (cid cols today) :
    dictGet (buildCertData cid cols today) nameKey =
      some ((lastSynValue nameSyns cols).getD (posFallback cols 0 (ofStr "Unknown"))) := by
  unfold buildCertData certD3
  rw [dictGet_condSet_ne _ (by decide : nameKey ≠ dateKey),
      dictGet_condSet_ne _ (by decide : nameKey ≠ courseKey)]
  unfold certD2
  rw [dictGet_condSet_self, dictGet_certD1_name]

theorem dictGet_buildCertData_course (cid cols today) :
    dictGet (buildCertData cid cols today) courseKey =
      some ((lastSynValue courseSyns cols).getD (posFallback cols 1 (ofStr "Unknown"))) := by
  unfold buildCertData
  rw [dictGet_condSet_ne _ (by decide : courseKey ≠ dateKey)]
  unfold certD3
  rw [dictGet_condSet_self]
  unfold certD2
  rw [dictGet_condSet_ne _ (by decide : courseKey ≠ nameKey), dictGet_certD1_course]

theorem dictGet_buildCertData_date (cid cols today) :
    dictGet (buildCertData cid cols today) dateKey =
      some ((lastSynValue dateSyns cols).getD (posFallback cols 2 today)) := by
  unfold buildCertData
  rw [dictGet_condSet_self]
  unfold certD3
  rw [dictGet_condSet_ne _ (by decide : dateKey ≠ courseKey)]
  unfold certD2
  rw [dictGet_condSet_ne _ (by decide : dateKey ≠ nameKey), dictGet_certD1_date]

/-- **C1 (amended).** The canonical field derivation scans column names
case-insensitively (lowercased then trimmed) against the synonym sets, but the
LAST matching column per category wins, because each later match overwrites the
earlier assignment.  If no column matches a category it falls back positionally
(1st column → recipient, 2nd → course, 3rd → date, the value trimmed), and the
date further falls back to the current date (`today`) if still absent. -/
theorem C1_canonical_field_derivation :
    ∀ certId cols today,
      dictGet (buildCertData certId cols today) certIdKey = some certId ∧
      dictGet (buildCertData certId cols today) nameKey =
        some ((lastSynValue nameSyns cols).getD (posFallback cols 0 (ofStr "Unknown"))) ∧
      dictGet (buildCertData certId cols today) courseKey =
        some ((lastSynValue courseSyns cols).getD (posFallback cols 1 (ofStr "Unknown"))) ∧
      dictGet (buildCertData certId cols today) dateKey =
        some ((lastSynValue dateSyns cols).getD (posFallback cols 2 today)) := by
  intro certId cols today
  exact ⟨dictGet_buildCertData_certId _ _ _, dictGet_buildCertData_name _ _ _,
         dictGet_buildCertData_course _ _ _, dictGet_buildCertData_date _ _ _⟩

/-- **C1 (counterexample).** On a row with columns `name = "A"` and
`student = "B"` — both name-like — the code assigns the recipient from the LAST
matching column (`"B"`), while the claim's first-match-wins rule
(`specFirstSynValue`) would yield `"A"`.  The claim is false as stated. -/
theorem C1_counterexample :
    dictGet (buildCertData (ofStr "X")
        [(ofStr "name", ofStr "A"), (ofStr "student", ofStr "B")] (ofStr "D")) nameKey
      = some (ofStr "B") ∧
    specFirstSynValue nameSyns [(ofStr "name", ofStr "A"), (ofStr "student", ofStr "B")]
      = some (ofStr "A") ∧
    (some (ofStr "B") : Option PyStr) ≠ some (ofStr "A") :=
  ⟨by decide, by decide, by decide⟩

-- ## Per-row records passed to signing, hashing and storage (lines 172, 196–207)

structure RowArtifacts where
  signedRecord : Dict
  hashedRecord : Dict
  storedAdditional : Dict

/-- app.py lines 172 and 196–207: per row, `sign_certificate` and
`compute_certificate_hash` both receive `cert_data`, while `raw_data` (every
dataset column, value normalized by `safe_str`) is passed to
`store_certificate` only as `additional_data`. -/
def processRowRecords (certId : PyStr) (cols row : List PyStr) (today : PyStr) :
    RowArtifacts :=
  { signedRecord := buildCertData certId (cols.zip row) today
    hashedRecord := buildCertData certId (cols.zip row) today
    storedAdditional := (cols.zip row).map (fun p => (p.1, pyStrip p.2)) }

theorem buildCertData_keys (cid cols today) :
    (dictKeys (buildCertData cid cols today)).Nodup ∧
      ∀ k, k ∈ dictKeys (buildCertData cid cols today) ↔ k ∈ canonicalKeys := by
  have h0 : (dictKeys [(certIdKey, cid)]).Nodup := by simp [dictKeys]
  have h0s : dictKeys [(certIdKey, cid)] ⊆ canonicalKeys := by
    intro x hx
    simp [dictKeys] at hx
    subst hx
    exact (by decide : certIdKey ∈ canonicalKeys)
  have h1 := updFold_keys_invariant (f := certUpdate)
    (fun _ _ h => certUpdate_key_mem h) cols [(certIdKey, cid)] h0 h0s
  have h2 : (dictKeys (certD2 cid cols)).Nodup ∧ dictKeys (certD2 cid cols) ⊆ canonicalKeys := by
    unfold certD2
    exact nodup_subset_condSet _ h1.1 h1.2 (by decide : nameKey ∈ canonicalKeys)
  have h3 : (dictKeys (certD3 cid cols)).Nodup ∧ dictKeys (certD3 cid cols) ⊆ canonicalKeys := by
    unfold certD3
    exact nodup_subset_condSet _ h2.1 h2.2 (by decide : courseKey ∈ canonicalKeys)
  have h4 : (dictKeys (buildCertData cid cols today)).Nodup ∧
      dictKeys (buildCertData cid cols today) ⊆ canonicalKeys := by
    unfold buildCertData
    exact nodup_subset_condSet _ h3.1 h3.2 (by decide : dateKey ∈ canonicalKeys)
  have hmId : certIdKey ∈ dictKeys (buildCertData cid cols today) := by
    unfold buildCertData certD3 certD2
    exact mem_dictKeys_condSet _ (mem_dictKeys_condSet _ (mem_dictKeys_condSet _
      (mem_dictKeys_updFold cols _ (by simp [dictKeys]))))
  have hmName : nameKey ∈ dictKeys (buildCertData cid cols today) := by
    unfold buildCertData certD3 certD2
    exact mem_dictKeys_condSet _ (mem_dictKeys_condSet _ self_mem_dictKeys_condSet)
  have hmCourse : courseKey ∈ dictKeys (buildCertData cid cols today) := by
    unfold buildCertData certD3
    exact mem_dictKeys_condSet _ self_mem_dictKeys_condSet
  have hmDate : dateKey ∈ dictKeys (buildCertData cid cols today) := by
    unfold buildCertData
    exact self_mem_dictKeys_condSet
  refine ⟨h4.1, fun k => ⟨fun hk => h4.2 hk, fun hk => ?_⟩⟩
  simp only [canonicalKeys, List.mem_cons, List.not_mem_nil, or_false] at hk
  rcases hk with rfl | rfl | rfl | rfl
  · exact hmId
  · exact hmName
  · exact hmCourse
  · exact hmDate

/-- **C2.** For every processed row, the record passed to signing and the record
passed to hashing are one and the same `cert_data`, whose keys are exactly the
four canonical fields (`cert_id`, `name`, `course`, `date`) and nothing else;
the raw row data (all dataset columns) is passed to storage separately as
`additional_data` and is not part of the signed or hashed record. -/
theorem C2_signing_input_exactly_canonical :
    ∀ certId cols row today,
      (processRowRecords certId cols row today).signedRecord =
        (processRowRecords certId cols row today).hashedRecord ∧
      (dictKeys (processRowRecords certId cols row today).signedRecord).Nodup ∧
      (∀ k, k ∈ dictKeys (processRowRecords certId cols row today).signedRecord ↔
        k ∈ canonicalKeys) ∧
      (processRowRecords certId cols row today).storedAdditional =
        (cols.zip row).map (fun p => (p.1, pyStrip p.2)) := by
  intro certId cols row today
  exact ⟨rfl, (buildCertData_keys _ _ _).1, (buildCertData_keys _ _ _).2, rfl⟩

-- ## Placeholder-to-column mapping (`_compute_mapping`, app.py lines 37–45)

/-- app.py line 38: `col_map = {col.strip().lower(): col for col in df_columns}` —
later duplicates overwrite earlier ones. -/
def colMap (dfColumns : List PyStr) : Dict :=
  updFold (fun c => some (pyLower (pyStrip c), c)) dfColumns []

/-- The loop at app.py lines 39–43: accumulate `matched` pairs and the
`matched_keys` set, in placeholder order. -/
def mappingAcc (m : Dict) (placeholderKeys : List PyStr) :
    List (PyStr × PyStr) × List PyStr :=
  placeholderKeys.foldl
    (fun (acc : List (PyStr × PyStr) × List PyStr) k =>
      match dictGet m k with
      | some c => (acc.1 ++ [(k, c)], acc.2 ++ [k])
      | none => acc) ([], [])

/-- app.py lines 37–45: `_compute_mapping(df_columns, placeholder_keys)`.
Returns the matched `(placeholder, column)` pairs and the unmatched keys. -/
def computeMapping (dfColumns placeholderKeys : List PyStr) :
    List (PyStr × PyStr) × List PyStr :=
  ((mappingAcc (colMap dfColumns) placeholderKeys).1,
   placeholderKeys.filter
     (fun k => decide (k ∉ (mappingAcc (colMap dfColumns) placeholderKeys).2)))

/-- The LAST column whose trimmed, lowercased name equals `k` (later columns
overwrite earlier ones in the comprehension at line 38). -/
def lastNormCol (dfColumns : List PyStr) (k : PyStr) : Option PyStr :=
  dfColumns.reverse.findSome? (fun c => if pyLower (pyStrip c) = k then some c else none)

theorem dictGet_colMap (dfColumns : List PyStr) (k : PyStr) :
    dictGet (colMap dfColumns) k = lastNormCol dfColumns k := by
  unfold colMap
  rw [dictGet_updFold]
  have : (fun c => targetVal (fun c => some (pyLower (pyStrip c), c)) c k) =
      (fun c => if pyLower (pyStrip c) = k then some c else none) := by
    funext c
    unfold targetVal
    rfl
  rw [this, show dictGet [] k = none from rfl, Option.or_none]
  rfl

theorem mapping_foldl (m : Dict) :
    ∀ (keys : List PyStr) (acc : List (PyStr × PyStr) × List PyStr),
      keys.foldl
        (fun (acc : List (PyStr × PyStr) × List PyStr) k =>
          match dictGet m k with
          | some c => (acc.1 ++ [(k, c)], acc.2 ++ [k])
          | none => acc) acc =
      (acc.1 ++ keys.filterMap (fun k => (dictGet m k).map (fun c => (k, c))),
       acc.2 ++ keys.filter (fun k => (dictGet m k).isSome)) := by
  intro keys
  induction keys with
  | nil => intro acc; simp
  | cons k t ih =>
    intro acc
    rw [List.foldl_cons]
    rcases hk : dictGet m k with - | c
    · simp only [hk]
      rw [ih]
      simp [List.filterMap_cons, List.filter_cons, hk]
    · simp only [hk]
      rw [ih]
      simp [List.filterMap_cons, List.filter_cons, hk]

theorem computeMapping_matched (dfColumns placeholderKeys : List PyStr) :
    (computeMapping dfColumns placeholderKeys).1 =
      placeholderKeys.filterMap
        (fun k => (lastNormCol dfColumns k).map (fun c => (k, c))) := by
  unfold computeMapping mappingAcc
  rw [mapping_foldl]
  simp only [List.nil_append]
  congr 1
  funext k
  rw [dictGet_colMap]

theorem computeMapping_unmatched (dfColumns placeholderKeys : List PyStr) :
    (computeMapping dfColumns placeholderKeys).2 =
      placeholderKeys.filter (fun k => (lastNormCol dfColumns k).isNone) := by
  unfold computeMapping mappingAcc
  rw [mapping_foldl]
  simp only [List.nil_append]
  apply List.filter_congr
  intro k hk
  rcases hg : dictGet (colMap dfColumns) k with - | c
  · have hmem : k ∉ placeholderKeys.filter
        (fun k => (dictGet (colMap dfColumns) k).isSome) := by
      intro hmem
      rcases List.mem_filter.mp hmem with ⟨-, hs⟩
      simp [hg] at hs
    rw [← dictGet_colMap, hg]
    simp [hmem]
  · have hmem : k ∈ placeholderKeys.filter
        (fun k => (dictGet (colMap dfColumns) k).isSome) :=
      List.mem_filter.mpr ⟨hk, by simp [hg]⟩
    rw [← dictGet_colMap, hg]
    simp [hmem]

theorem lastNormCol_NameCourse (k : PyStr) :
    lastNormCol [ofStr "Name", ofStr "Course"] k =
      if ofStr "course" = k then some (ofStr "Course")
      else if ofStr "name" = k then some (ofStr "Name") else none := by
  by_cases h1 : ofStr "course" = k
  · subst h1; decide
  · by_cases h2 : ofStr "name" = k
    · subst h2; decide
    · have hc : pyLower (pyStrip (ofStr "Course")) = ofStr "course" := by decide
      have hn : pyLower (pyStrip (ofStr "Name")) = ofStr "name" := by decide
      unfold lastNormCol
      show List.findSome? _ [ofStr "Course", ofStr "Name"] = _
      simp [List.findSome?, hc, hn, h1, h2]

theorem lastNormCol_namecourse (k : PyStr) :
    lastNormCol [ofStr "name", ofStr "course"] k =
      if ofStr "course" = k then some (ofStr "course")
      else if ofStr "name" = k then some (ofStr "name") else none := by
  by_cases h1 : ofStr "course" = k
  · subst h1; decide
  · by_cases h2 : ofStr "name" = k
    · subst h2; decide
    · have hc : pyLower (pyStrip (ofStr "course")) = ofStr "course" := by decide
      have hn : pyLower (pyStrip (ofStr "name")) = ofStr "name" := by decide
      unfold lastNormCol
      show List.findSome? _ [ofStr "course", ofStr "name"] = _
      simp [List.findSome?, hc, hn, h1, h2]

/-- **C3 (amended).** `computeMapping` normalizes the COLUMN names (trimmed and
lowercased); each placeholder key is then compared verbatim — case-sensitively —
against those normalized names, so a placeholder matches at most one column,
with the LAST column of a given normalized name winning (later comprehension
entries overwrite earlier ones); placeholders with no match are returned in the
unmatched list in order.  For columns `["Name","Course"]` versus
`["name","course"]` the matched placeholder keys and the unmatched list
coincide, though the reported column spellings keep their original case. -/
theorem C3_placeholder_mapping :
    (∀ cols keys, (computeMapping cols keys).1 =
      keys.filterMap (fun k => (lastNormCol cols k).map (fun c => (k, c)))) ∧
    (∀ cols keys, (computeMapping cols keys).2 =
      keys.filter (fun k => (lastNormCol cols k).isNone)) ∧
    (∀ keys,
      (computeMapping [ofStr "Name", ofStr "Course"] keys).1.map Prod.fst =
        (computeMapping [ofStr "name", ofStr "course"] keys).1.map Prod.fst ∧
      (computeMapping [ofStr "Name", ofStr "Course"] keys).2 =
        (computeMapping [ofStr "name", ofStr "course"] keys).2) := by
  refine ⟨computeMapping_matched, computeMapping_unmatched, fun keys => ⟨?_, ?_⟩⟩
  · rw [computeMapping_matched, computeMapping_matched, List.map_filterMap,
        List.map_filterMap]
    congr 1
    funext k
    rw [lastNormCol_NameCourse, lastNormCol_namecourse]
    by_cases h1 : ofStr "course" = k
    · simp [h1]
    · by_cases h2 : ofStr "name" = k <;> simp [h1, h2]
  · rw [computeMapping_unmatched, computeMapping_unmatched]
    apply List.filter_congr
    intro k hk
    rw [lastNormCol_NameCourse, lastNormCol_namecourse]
    by_cases h1 : ofStr "course" = k
    · simp [h1]
    · by_cases h2 : ofStr "name" = k <;> simp [h1, h2]

/-- **C3 (counterexample).** The placeholder key is NOT compared
case-insensitively: against column `"name"` the key `"Name"` — identical up to
case and trimming — is reported unmatched; and the full mapping result for
columns `["Name"]` differs from that for `["name"]` (the matched pair carries
the original column spelling), so the claimed equality of mapping results
across column casing fails as well. -/
theorem C3_counterexample :
    (computeMapping [ofStr "name"] [ofStr "Name"]).2 = [ofStr "Name"] ∧
    pyLower (pyStrip (ofStr "Name")) = pyLower (pyStrip (ofStr "name")) ∧
    (computeMapping [ofStr "Name"] [ofStr "name"]).1 ≠
      (computeMapping [ofStr "name"] [ofStr "name"]).1 :=
  ⟨by decide, by decide, by decide⟩

-- ## Row iteration (`_run_generation`, app.py lines 164–247)

/-- Outcome of the try-block for one row (lines 171–216), abstracting the
external rendering engine, storage, and filesystem: `ok` — the certificate was
rendered and the output file exists non-empty; `noPdf` — no exception, but the
output file is missing or empty (line 212); `raised msg` — some step of the
try-block raised an exception whose text is `msg` (line 215). -/
inductive RowFault where
  | ok : RowFault
  | noPdf : RowFault
  | raised : PyStr → RowFault
deriving DecidableEq

/-- app.py line 210: the archive entry name `f"{safe_name}.pdf"` for a row whose
first-column value is `row[0]`. -/
def entryName (row : List PyStr) (i : Nat) : PyStr :=
  safeFileName (row.headD []) i ++ ofStr ".pdf"

/-- app.py line 177: the temporary per-row output path `f"{job_id}_{idx}.pdf"`
(relative to the output directory). -/
def tmpPdfPath (jobId : PyStr) (idx : Nat) : PyStr :=
  jobId ++ ofStr "_" ++ natToChars idx ++ ofStr ".pdf"

/-- The mutable loop state of lines 165–224: `done`, `success_count`, `errors`,
and the archive entries written so far. -/
structure IterState where
  doneCount : Nat
  success : Nat
  errors : List PyStr
  entries : List PyStr
deriving DecidableEq

def initIter : IterState := ⟨0, 0, [], []⟩

/-- The error entry (if any) recorded for row `i` under fault `f`
(lines 213 and 216). -/
def rowErrMsg (f : RowFault) (i : Nat) : Option PyStr :=
  match f with
  | .ok => none
  | .noPdf => some (ofStr "Row " ++ natToChars (i + 1) ++ ofStr ": PDF not created")
  | .raised msg => some (ofStr "Row " ++ natToChars (i + 1) ++ ofStr ": " ++ msg.take 150)

/-- One iteration of the row loop (lines 169–224): on success the entry is
written and `success_count` incremented; on failure one error is appended; the
progress counter `done` advances in every case. -/
def processOne (f : RowFault) (i : Nat) (row : List PyStr) (st : IterState) : IterState :=
  match f with
  | .ok =>
    { st with
      doneCount := st.doneCount + 1
      success := st.success + 1
      entries := st.entries ++ [entryName row i] }
  | .noPdf =>
    { st with
      doneCount := st.doneCount + 1
      errors := st.errors ++ [ofStr "Row " ++ natToChars (i + 1) ++ ofStr ": PDF not created"] }
  | .raised msg =>
    { st with
      doneCount := st.doneCount + 1
      errors := st.errors ++ [ofStr "Row " ++ natToChars (i + 1) ++ ofStr ": " ++ msg.take 150] }

/-- The whole row loop at lines 169–224: `for idx, (_, row) in enumerate(df.iterrows())`.
`fault` gives the try-block outcome of each row index. -/
def runRows (rows : List (List PyStr)) (fault : Nat → RowFault) : IterState :=
  rows.enum.foldl (fun st p => processOne (fault p.1) p.1 p.2 st) initIter

/-- The archive entry contributed by an (index, row) pair, if its row succeeded. -/
def okEntry (fault : Nat → RowFault) (p : Nat × List PyStr) : Option PyStr :=
  match fault p.1 with
  | .ok => some (entryName p.2 p.1)
  | _ => none

theorem runRows_foldl (fault : Nat → RowFault) :
    ∀ (rows : List (List PyStr)) (k : Nat) (st : IterState),
      (List.enumFrom k rows).foldl (fun st p => processOne (fault p.1) p.1 p.2 st) st =
      { doneCount := st.doneCount + rows.length
        success := st.success +
          ((List.enumFrom k rows).filter (fun p => decide (fault p.1 = .ok))).length
        errors := st.errors ++ (List.enumFrom k rows).filterMap (fun p => rowErrMsg (fault p.1) p.1)
        entries := st.entries ++ (List.enumFrom k rows).filterMap (okEntry fault) } := by
  intro rows
  induction rows with
  | nil =>
    intro k st
    simp [List.enumFrom]
  | cons r t ih =>
    intro k st
    rw [show List.enumFrom k (r :: t) = (k, r) :: List.enumFrom (k + 1) t from rfl,
        List.foldl_cons, ih]
    rcases hf : fault k with - | - | msg <;>
      simp [processOne, hf, okEntry, rowErrMsg, List.filter_cons, List.filterMap_cons] <;>
      omega

/-- Closed form of the row loop: every row is processed (`doneCount` reaches the
row count), each failing row contributes exactly one error message tagged with
its index, each succeeding row contributes exactly one archive entry, and
`success_count` counts the succeeding rows. -/
theorem runRows_spec (rows : List (List PyStr)) (fault : Nat → RowFault) :
    runRows rows fault =
      { doneCount := rows.length
        success := (rows.enum.filter (fun p => decide (fault p.1 = .ok))).length
        errors := rows.enum.filterMap (fun p => rowErrMsg (fault p.1) p.1)
        entries := rows.enum.filterMap (okEntry fault) } := by
  unfold runRows
  rw [show rows.enum = List.enumFrom 0 rows from rfl, runRows_foldl]
  simp [initIter]

/-- **C7.** Row-level failures are isolated: for every dataset and every pattern
of per-row faults, the loop processes every row (`done` reaches the row count —
no fault aborts the job), a failing row appends exactly one error entry tagged
with its row index, a succeeding row appends exactly one archive entry, and
`success_count` counts exactly the succeeding rows — all independent of which
earlier rows failed. -/
theorem C7_row_failures_isolated :
    ∀ rows fault,
      (runRows rows fault).doneCount = rows.length ∧
      (runRows rows fault).errors =
        rows.enum.filterMap (fun p => rowErrMsg (fault p.1) p.1) ∧
      (runRows rows fault).entries = rows.enum.filterMap (okEntry fault) ∧
      (runRows rows fault).success =
        (rows.enum.filter (fun p => decide (fault p.1 = .ok))).length := by
  intro rows fault
  rw [runRows_spec]
  exact ⟨rfl, rfl, rfl, rfl⟩

theorem dropWhile_eq_nil_of_all {p : Char → Bool} :
    ∀ l : PyStr, (∀ c ∈ l.dropWhile p, p c = true) → l.dropWhile p = [] := by
  intro l
  induction l with
  | nil => intro _; rfl
  | cons c t ih =>
    intro h
    by_cases hc : p c = true
    · rw [List.dropWhile_cons_of_pos hc] at h ⊢
      exact ih h
    · rw [List.dropWhile_cons_of_neg (by simp [hc])] at h
      exact absurd (h c (List.mem_cons_self _ _)) hc

theorem pyStrip_eq_nil_of_all_space {v : PyStr}
    (h : ∀ c ∈ pyStrip v, pyIsSpace c = true) : pyStrip v = [] := by
  unfold pyStrip at h ⊢
  have h2 : ∀ c ∈ ((v.dropWhile pyIsSpace).reverse.dropWhile pyIsSpace),
      pyIsSpace c = true :=
    fun c hc => h c (List.mem_reverse.mpr hc)
  rw [dropWhile_eq_nil_of_all _ h2]
  rfl

theorem all_space_of_pyStrip_eq_nil {l : PyStr} (h : pyStrip l = []) :
    ∀ c ∈ l, pyIsSpace c = true := by
  unfold pyStrip at h
  rw [List.reverse_eq_nil_iff, List.dropWhile_eq_nil_iff] at h
  have h2 : ∀ c ∈ l.dropWhile pyIsSpace, pyIsSpace c = true :=
    fun c hc => h c (List.mem_reverse.mpr hc)
  have h3 := dropWhile_eq_nil_of_all l h2
  rw [List.dropWhile_eq_nil_iff] at h3
  exact h3

theorem sanitize_pyStrip_ne_nil {v : PyStr} (h : pyStrip v ≠ []) :
    pyStrip (sanitizeName (pyStrip v)) ≠ [] := by
  intro hc
  have hall := all_space_of_pyStrip_eq_nil hc
  apply h
  apply pyStrip_eq_nil_of_all_space
  intro c hcmem
  have hmem : (if allowedChar c then c else '_') ∈ sanitizeName (pyStrip v) :=
    List.mem_map_of_mem _ hcmem
  have hsp := hall _ hmem
  by_cases ha : allowedChar c = true
  · rwa [if_pos ha] at hsp
  · rw [if_neg (by simp [ha])] at hsp
    exact absurd hsp (by decide)

theorem safeFileName_index_independent {v : PyStr} {i j : Nat}
    (h1 : pyStrip v ≠ []) (h2 : pyLower (pyStrip v) ≠ ofStr "nan") :
    safeFileName v i = safeFileName v j := by
  have hcond : ¬ (pyStrip v = [] ∨ pyLower (pyStrip v) = ofStr "nan") := by
    rintro (h | h)
    · exact h1 h
    · exact h2 h
  unfold safeFileName
  simp only [if_neg hcond, if_neg (sanitize_pyStrip_ne_nil h1)]

/-- **C4 (amended).** Within one job, the archive entry name of a successful row
is the sanitized display name plus `".pdf"` with NO row index appended — the
row index is appended only to the temporary per-row output path
`f"{job_id}_{idx}.pdf"` — so archive entry names are NOT unique when display
names repeat: two rows with the same nonempty (and non-`"nan"`) first-column
value are written under identical entry names. -/
theorem C4_entry_names_not_unique :
    (∀ rows fault, (runRows rows fault).entries = rows.enum.filterMap (okEntry fault)) ∧
    (∀ jobId idx, tmpPdfPath jobId idx =
      jobId ++ ofStr "_" ++ natToChars idx ++ ofStr ".pdf") ∧
    (∀ (row : List PyStr) i j, pyStrip (row.headD []) ≠ [] →
      pyLower (pyStrip (row.headD [])) ≠ ofStr "nan" →
      entryName row i = entryName row j) := by
  refine ⟨fun rows fault => ?_, fun _ _ => rfl, fun row i j h1 h2 => ?_⟩
  · rw [runRows_spec]
  · unfold entryName
    rw [safeFileName_index_independent h1 h2]

/-- Witness for C4 (amended) at a concrete input: the rows with first-column
value `"John"` at indices 0 and 1 share the entry name. -/
theorem C4_entry_names_witness :
    entryName [ofStr "John"] 0 = entryName [ofStr "John"] 1 :=
  C4_entry_names_not_unique.2.2 [ofStr "John"] 0 1 (by decide) (by decide)

/-- **C4 (counterexample).** Two successful rows with the same first-column
value `"John"` produce the duplicate entry list `["John.pdf", "John.pdf"]`:
archive entry names are not unique within one job, contrary to the claim. -/
theorem C4_counterexample :
    (runRows [[ofStr "John"], [ofStr "John"]] (fun _ => RowFault.ok)).entries =
      [ofStr "John.pdf", ofStr "John.pdf"] ∧
    ¬ (runRows [[ofStr "John"], [ofStr "John"]] (fun _ => RowFault.ok)).entries.Nodup :=
  ⟨by decide, by decide⟩

-- ## The whole generation run (`_run_generation`, app.py lines 137–247)

inductive GenStatus where
  | genError : GenStatus
  | genDone : GenStatus
deriving DecidableEq

/-- The observable outcome of `_run_generation`: final status and message,
whether the transient input files (template, dataset, signature image) were
removed (the `finally` block at lines 229–236), whether the archive was removed
(lines 242–244), and the final loop state. -/
structure GenResult where
  status : GenStatus
  errorMsg : Option PyStr
  inputFilesRemoved : Bool
  zipRemoved : Bool
  iter : IterState
deriving DecidableEq

/-- app.py lines 238–240: the zero-success failure message. -/
def zeroSuccessMsg (errors : List PyStr) : PyStr :=
  ofStr "Failed to generate any certificates." ++
    (match errors with
     | [] => []
     | e :: _ => ofStr " First error: " ++ e)

/-- app.py lines 137–247: `_run_generation`.  `loadRes` abstracts
`extract_placeholders` + `load_data` (lines 150–155): `.error e` models an
exception with text `e`, `.ok (placeholders, rows)` a successful load.
`fault` gives each row's try-block outcome, and `fatal` models an exception
escaping the row loop inside the `with zipfile...` block (lines 226–228);
the `finally` cleanup of the input files runs exactly on the paths that entered
that block. -/
def runGeneration (loadRes : Except PyStr (List PyStr × List (List PyStr)))
    (fault : Nat → RowFault) (fatal : Option PyStr) : GenResult :=
  match loadRes with
  | .error e =>
    ⟨.genError, some (ofStr "Failed to read files: " ++ e), false, false, initIter⟩
  | .ok (placeholders, rows) =>
    if placeholders = [] then
      ⟨.genError, some (ofStr "No placeholders found in template."), false, false, initIter⟩
    else
      match fatal with
      | some e =>
        ⟨.genError, some (ofStr "Fatal ZIP error: " ++ e), true, false, initIter⟩
      | none =>
        if (runRows rows fault).success = 0 then
          ⟨.genError, some (zeroSuccessMsg (runRows rows fault).errors), true, true,
            runRows rows fault⟩
        else
          ⟨.genDone, none, true, false, runRows rows fault⟩

/-- **C5.** If `success_count` is zero when row iteration finishes, the job
transitions to error with a message that includes the first recorded per-row
error, and the partially-built archive file is removed from storage. -/
theorem C5_zero_success_error :
    ∀ ph rows fault e rest,
      ph ≠ [] →
      (runRows rows fault).success = 0 →
      (runRows rows fault).errors = e :: rest →
      (runGeneration (Except.ok (ph, rows)) fault none).status = GenStatus.genError ∧
      (runGeneration (Except.ok (ph, rows)) fault none).zipRemoved = true ∧
      (runGeneration (Except.ok (ph, rows)) fault none).errorMsg =
        some (ofStr "Failed to generate any certificates. First error: " ++ e) := by
  intro ph rows fault e rest hph hs he
  have hcat : ofStr "Failed to generate any certificates." ++ ofStr " First error: " =
      ofStr "Failed to generate any certificates. First error: " := by decide
  unfold runGeneration
  dsimp only
  rw [if_neg hph]
  simp only [if_pos hs]
  refine ⟨by simp, by simp, ?_⟩
  show some (zeroSuccessMsg (runRows rows fault).errors) = _
  rw [he]
  unfold zeroSuccessMsg
  rw [← List.append_assoc, hcat]

/-- Witness for C5: a one-row dataset whose only row raises `"boom"`. -/
theorem C5_zero_success_error_witness :
    (runGeneration (Except.ok ([ofStr "x"], [[ofStr "A"]]))
        (fun _ => RowFault.raised (ofStr "boom")) none).status = GenStatus.genError ∧
    (runGeneration (Except.ok ([ofStr "x"], [[ofStr "A"]]))
        (fun _ => RowFault.raised (ofStr "boom")) none).zipRemoved = true ∧
    (runGeneration (Except.ok ([ofStr "x"], [[ofStr "A"]]))
        (fun _ => RowFault.raised (ofStr "boom")) none).errorMsg =
      some (ofStr "Failed to generate any certificates. First error: " ++
        ofStr "Row 1: boom") :=
  C5_zero_success_error [ofStr "x"] [[ofStr "A"]] (fun _ => RowFault.raised (ofStr "boom"))
    (ofStr "Row 1: boom") [] (by decide) (by decide) (by decide)

/-- **C6 (amended).** The transient input files are removed exactly on the paths
that reach row iteration — including a fatal fault inside the archive block and
both the zero-success and success outcomes — but NOT when loading the template
or dataset fails, nor when zero placeholders are found: those two paths return
before the `try/finally` block is entered, leaving the input files in place. -/
theorem C6_cleanup_iff_iteration_reached :
    ∀ loadRes fault fatal,
      (runGeneration loadRes fault fatal).inputFilesRemoved =
        (match loadRes with
         | .ok (placeholders, _) => decide (placeholders ≠ [])
         | .error _ => false) := by
  intro loadRes fault fatal
  rcases loadRes with e | ⟨ph, rows⟩
  · rfl
  · by_cases hph : ph = []
    · simp [runGeneration, hph]
    · rcases fatal with - | e
      · unfold runGeneration
        dsimp only
        rw [if_neg hph]
        simp only [hph, decide_not]
        split <;> simp [hph]
      · simp [runGeneration, hph]

/-- **C6 (counterexample).** When loading the template or dataset fails, the
run completes (status error) with the transient input files NOT removed — the
early return at line 155 precedes the `try/finally` cleanup, contradicting the
claim that cleanup happens on every completion path. -/
theorem C6_counterexample :
    (runGeneration (Except.error (ofStr "boom")) (fun _ => RowFault.ok) none).status =
      GenStatus.genError ∧
    (runGeneration (Except.error (ofStr "boom")) (fun _ => RowFault.ok) none).inputFilesRemoved =
      false ∧
    (runGeneration (Except.ok ([], [])) (fun _ => RowFault.ok) none).inputFilesRemoved =
      false :=
  ⟨rfl, rfl, rfl⟩

-- ## The SSE progress stream (`job_status`, app.py lines 292–352)

inductive JobStatus where
  | queued : JobStatus
  | running : JobStatus
  | jobDone : JobStatus
  | jobError : JobStatus
deriving DecidableEq

/-- One record of the in-memory job store `_jobs` (line 33).  `zip` abstracts
the filesystem at `zip_path`: `.ok payload` means `open(zip_path).read()`
succeeds (the base64 transport encoding is abstracted away), `.error e` means
opening or reading raises an exception with text `e`. -/
structure Job where
  status : JobStatus
  errorMsg : Option String
  doneCount : Nat
  total : Nat
  success : Nat
  errors : List String
  zip : Except String String

def statusName : JobStatus → String
  | .queued => "queued"
  | .running => "running"
  | .jobDone => "done"
  | .jobError => "error"

/-- The SSE events emitted by `stream()` (lines 294–346). -/
inductive Event where
  | progress (status : String) (done total success errorCount : Nat) : Event
  | doneEv (success total : Nat) (errors : List String) (zipPayload : String) : Event
  | errorEv (message : String) : Event
deriving DecidableEq

/-- `_jobs.pop(job_id, None)` on the registry-as-function model. -/
def eraseJob (reg : String → Option Job) (jid : String) : String → Option Job :=
  fun k => if k = jid then none else reg k

/-- The result of one iteration of the `while True` loop in `stream()`:
the events yielded, the registry afterwards, and whether the generator
returned (`ended = true`) or loops again after the 0.8 s sleep. -/
structure StepResult where
  events : List Event
  registry : String → Option Job
  ended : Bool

/-- One iteration of the `while True` loop of `stream()` (lines 295–346). -/
def streamStep (reg : String → Option Job) (jid : String) : StepResult :=
  match reg jid with
  | none => ⟨[.errorEv "Job not found."], reg, true⟩
  | some job =>
    match job.status with
    | .jobError =>
      ⟨[.errorEv (job.errorMsg.getD "Unknown error")], eraseJob reg jid, true⟩
    | .jobDone =>
      match job.zip with
      | .error e => ⟨[.errorEv ("Could not read ZIP: " ++ e)], reg, true⟩
      | .ok payload =>
        ⟨[.doneEv job.success job.total (job.errors.take 5) payload], eraseJob reg jid, true⟩
    | st =>
      ⟨[.progress (statusName st) job.doneCount job.total job.success job.errors.length],
        reg, false⟩

/-- **C8 (amended).** After the stream emits a done event, or an error event for
a job whose status is error, the job record is removed from the registry and the
stream ends; any stream request for an identifier absent from the registry
(disposed or never existing) yields exactly one error event and ends rather
than hanging.  (The error event emitted when a done job's archive cannot be
read does NOT remove the record — see C10.) -/
theorem C8_terminal_disposal_and_notfound :
    ∀ (reg : String → Option Job) (jid : String),
      (reg jid = none →
        (streamStep reg jid).events = [Event.errorEv "Job not found."] ∧
        (streamStep reg jid).ended = true ∧
        (streamStep reg jid).registry = reg) ∧
      (∀ job, reg jid = some job → job.status = JobStatus.jobError →
        (streamStep reg jid).events = [Event.errorEv (job.errorMsg.getD "Unknown error")] ∧
        (streamStep reg jid).ended = true ∧
        (streamStep reg jid).registry jid = none ∧
        ∀ k, k ≠ jid → (streamStep reg jid).registry k = reg k) ∧
      (∀ job payload, reg jid = some job → job.status = JobStatus.jobDone →
        job.zip = Except.ok payload →
        (streamStep reg jid).events =
          [Event.doneEv job.success job.total (job.errors.take 5) payload] ∧
        (streamStep reg jid).ended = true ∧
        (streamStep reg jid).registry jid = none ∧
        ∀ k, k ≠ jid → (streamStep reg jid).registry k = reg k) := by
  intro reg jid
  refine ⟨fun h => ?_, fun job hj hs => ?_, fun job payload hj hs hz => ?_⟩
  · unfold streamStep
    rw [h]
    exact ⟨rfl, rfl, rfl⟩
  · unfold streamStep
    rw [hj]
    dsimp only
    rw [hs]
    refine ⟨rfl, rfl, ?_, fun k hk => ?_⟩
    · unfold eraseJob
      simp
    · unfold eraseJob
      simp [hk]
  · unfold streamStep
    rw [hj]
    dsimp only
    rw [hs]
    dsimp only
    rw [hz]
    refine ⟨rfl, rfl, ?_, fun k hk => ?_⟩
    · unfold eraseJob
      simp
    · unfold eraseJob
      simp [hk]

/-- A concrete registry holding one job in status error, for the C8 witness. -/
def wJobC8 : Job := ⟨JobStatus.jobError, some "bad", 1, 1, 0, [], Except.error "x"⟩

def wRegC8 : String → Option Job := fun k => if k = "j" then some wJobC8 else none

/-- Witness for C8 (amended): streaming the error-status job `"j"` emits its
error message once, ends, and removes the record. -/
theorem C8_terminal_disposal_witness :
    (streamStep wRegC8 "j").events = [Event.errorEv "bad"] ∧
    (streamStep wRegC8 "j").ended = true ∧
    (streamStep wRegC8 "j").registry "j" = none :=
  ⟨((C8_terminal_disposal_and_notfound wRegC8 "j").2.1 wJobC8 rfl rfl).1,
   ((C8_terminal_disposal_and_notfound wRegC8 "j").2.1 wJobC8 rfl rfl).2.1,
   ((C8_terminal_disposal_and_notfound wRegC8 "j").2.1 wJobC8 rfl rfl).2.2.1⟩

/-- A done job whose archive cannot be read, for the C8 counterexample. -/
def cexJobC8 : Job := ⟨JobStatus.jobDone, none, 1, 1, 1, [], Except.error "boom"⟩

def cexRegC8 : String → Option Job := fun k => if k = "j" then some cexJobC8 else none

/-- **C8 (counterexample).** For a job in status done whose archive read fails,
the stream emits a (terminal) error event and ends, yet the job record is NOT
removed from the registry — contradicting the claim that after a terminal done
or error event the record is always removed. -/
theorem C8_counterexample :
    (streamStep cexRegC8 "j").events = [Event.errorEv "Could not read ZIP: boom"] ∧
    (streamStep cexRegC8 "j").ended = true ∧
    (streamStep cexRegC8 "j").registry "j" = some cexJobC8 :=
  ⟨rfl, rfl, rfl⟩

/-- **C10.** If a job is in status done but its archive cannot be read while
building the done event, the stream emits a single error event and ends without
removing the job record from the registry: the job remains available to later
stream requests instead of being disposed. -/
theorem C10_unreadable_zip_keeps_job :
    ∀ (reg : String → Option Job) (jid : String) (job : Job) (e : String),
      reg jid = some job → job.status = JobStatus.jobDone → job.zip = Except.error e →
      (streamStep reg jid).events = [Event.errorEv ("Could not read ZIP: " ++ e)] ∧
      (streamStep reg jid).ended = true ∧
      (streamStep reg jid).registry = reg ∧
      (streamStep reg jid).registry jid = some job := by
  intro reg jid job e hj hs hz
  unfold streamStep
  rw [hj]
  dsimp only
  rw [hs]
  dsimp only
  rw [hz]
  exact ⟨rfl, rfl, rfl, hj⟩

/-- A done job with unreadable archive in a concrete registry, for the C10 witness. -/
def wJobC10 : Job := ⟨JobStatus.jobDone, none, 2, 2, 2, ["m"], Except.error "io"⟩

def wRegC10 : String → Option Job := fun k => if k = "job1" then some wJobC10 else none

/-- Witness for C10 at the concrete registry `wRegC10`. -/
theorem C10_unreadable_zip_witness :
    (streamStep wRegC10 "job1").events = [Event.errorEv "Could not read ZIP: io"] ∧
    (streamStep wRegC10 "job1").ended = true ∧
    (streamStep wRegC10 "job1").registry "job1" = some wJobC10 :=
  ⟨(C10_unreadable_zip_keeps_job wRegC10 "job1" wJobC10 "io" rfl rfl rfl).1,
   (C10_unreadable_zip_keeps_job wRegC10 "job1" wJobC10 "io" rfl rfl rfl).2.1,
   (C10_unreadable_zip_keeps_job wRegC10 "job1" wJobC10 "io" rfl rfl rfl).2.2.2⟩
